import Mathlib

/-!
Verification development for a library-lending backend (FastAPI application
`app.py`).  The data model (users, books, loans), the request handlers
(signup, book creation/listing/deletion, borrow, return, token resolution)
and the startup admin bootstrap are embedded shallowly as pure functions
over an explicit store.  Cryptographic primitives (password hashing, token
signing) are treated as opaque: a token is represented algebraically by
whether it is well signed, its optional subject and its expiry, which is
exactly the usage contract the handlers rely on.
-/

namespace LibraryApi

/-- Error taxonomy of the HTTP handlers: 422 validation, 401, 403, 404,
409, and an internal failure (unhandled exception, HTTP 500). -/
inductive Err where
  | validation
  | unauthorized
  | forbidden
  | notFound
  | conflict
  | internal
  deriving DecidableEq, Repr

/-- Row of the `users` table. -/
structure User where
  id : Nat
  username : String
  email : String
  full_name : Option String
  password_hash : String
  is_admin : Bool
  deriving DecidableEq, Repr

/-- Row of the `books` table.  Copy counters are integers, as in the
source (Python ints in SQLAlchemy `Integer` columns). -/
structure Book where
  id : Nat
  title : String
  author : String
  isbn : String
  category : Option String
  total_copies : Int
  available_copies : Int
  deriving DecidableEq, Repr

/-- Row of the `loans` table; `returned_at = none` means the loan is
Active. Timestamps are abstract instants (naturals). -/
structure Loan where
  id : Nat
  user_id : Nat
  book_id : Nat
  borrowed_at : Nat
  returned_at : Option Nat
  deriving DecidableEq, Repr

/-- The persistent store: the three relations plus the primary-key
counters the database maintains. -/
structure Store where
  users : List User
  books : List Book
  loans : List Loan
  nextUserId : Nat
  nextBookId : Nat
  nextLoanId : Nat
  deriving DecidableEq, Repr

/-- `db.get(Book, book_id)`: primary-key lookup. -/
def findBook (books : List Book) (bookId : Nat) : Option Book :=
  books.find? (fun b => b.id == bookId)

/-- `db.get(Loan, loan_id)`: primary-key lookup. -/
def findLoan (loans : List Loan) (loanId : Nat) : Option Loan :=
  loans.find? (fun l => l.id == loanId)

/-- `db.query(User).filter(User.username == username).first()`. -/
def findUserByName (users : List User) (username : String) : Option User :=
  users.find? (fun u => u.username == username)

/-- `db.query(Loan).filter(Loan.book_id == book_id, Loan.returned_at.is_(None))`:
the Active loans referencing a book. -/
def activeLoansFor (loans : List Loan) (bookId : Nat) : List Loan :=
  loans.filter (fun l => l.book_id == bookId && l.returned_at.isNone)

/-- Number of Active loans referencing a book. -/
def activeCount (loans : List Loan) (bookId : Nat) : Nat :=
  (activeLoansFor loans bookId).length

/-- `db.query(Loan).filter(Loan.user_id == u, Loan.book_id == b, Loan.returned_at.is_(None)).first()`:
the duplicate-active-loan probe of `borrow`. -/
def findActiveLoanBy (loans : List Loan) (userId bookId : Nat) : Option Loan :=
  loans.find? (fun l => l.user_id == userId && l.book_id == bookId && l.returned_at.isNone)

/-- Insert into a list kept in ascending `id` order (`order_by(Book.id.asc())`). -/
def insertAscBook (b : Book) : List Book → List Book
  | [] => [b]
  | x :: xs => if b.id ≤ x.id then b :: x :: xs else x :: insertAscBook b xs

/-- Sort books by ascending id, as `order_by(Book.id.asc())` does. -/
def sortBooksByIdAsc (bs : List Book) : List Book :=
  bs.foldr insertAscBook []

/-- Insert into a list kept in descending `id` order (`order_by(Loan.id.desc())`). -/
def insertDescLoan (l : Loan) : List Loan → List Loan
  | [] => [l]
  | x :: xs => if x.id ≤ l.id then l :: x :: xs else x :: insertDescLoan l xs

/-- Sort loans by descending id, as `order_by(Loan.id.desc())` does. -/
def sortLoansByIdDesc (ls : List Loan) : List Loan :=
  ls.foldr insertDescLoan []

/-- SQL `LIKE` pattern matching over characters: `%` matches any run,
`_` matches one character, anything else matches itself. -/
def likeMatch : List Char → List Char → Bool
  | [], s => s.isEmpty
  | p :: ps, s =>
    if p = '%' then
      likeMatch ps s ||
        (match s with
         | [] => false
         | _ :: s2 => likeMatch (p :: ps) s2)
    else
      match s with
      | [] => false
      | c :: s2 => if p = '_' then likeMatch ps s2 else p == c && likeMatch ps s2
  termination_by pat s => (pat.length, s.length)

/-- `column.ilike(pattern)` as SQLite compiles it:
`lower(column) LIKE lower(pattern)` with ASCII lowering. -/
def ilike (pat : List Char) (column : String) : Bool :=
  likeMatch (pat.map Char.toLower) (column.data.map Char.toLower)

/-- Bearer tokens, modelled at the usage contract of the signing
primitive: a well-signed token carries an optional `sub` claim and an
expiry instant; other tokens have a bad signature or are malformed. -/
inductive TokenV where
  | signed (sub : Option String) (exp : Nat)
  | badSig
  | malformed
  deriving DecidableEq, Repr

/-- `jwt.decode(token, SECRET_KEY, ...)`: yields the payload exactly when
the token is well signed and its expiry has not passed, raising
(`none`) otherwise. -/
def jwt_decode (t : TokenV) (now : Nat) : Option (Option String) :=
  match t with
  | .signed sub exp => if now < exp then some sub else none
  | .badSig => none
  | .malformed => none

/-- `get_current_user`: decode the token, then look the subject up in the
`users` table; any failure is 401. -/
def get_current_user (s : Store) (t : TokenV) (now : Nat) : Except Err User :=
  match jwt_decode t now with
  | none => .error .unauthorized
  | some sub =>
    match sub.bind (fun username => findUserByName s.users username) with
    | none => .error .unauthorized
    | some u => .ok u

/-- `POST /auth/signup`: reject a duplicate username or email with 400,
otherwise insert a non-admin user.  Password hashing is an opaque
primitive, so the handler receives the stored hash. -/
def signup (s : Store) (username email : String) (full_name : Option String)
    (pw_hash : String) : Except Err (User × Store) :=
  if (s.users.find? (fun u => u.username == username || u.email == email)).isSome then
    .error .conflict
  else
    let user : User := ⟨s.nextUserId, username, email, full_name, pw_hash, false⟩
    .ok (user, { s with users := s.users ++ [user], nextUserId := s.nextUserId + 1 })

/-- Startup bootstrap block: if no user carries the configured default
admin username, insert one admin row with that username. -/
def bootstrap_admin (s : Store) (adminUsername adminPwHash : String) : Store :=
  if (s.users.find? (fun u => u.username == adminUsername)).isSome then s
  else
    let admin : User :=
      ⟨s.nextUserId, adminUsername, adminUsername ++ "@local", some "Admin", adminPwHash, true⟩
    { s with users := s.users ++ [admin], nextUserId := s.nextUserId + 1 }

/-- `POST /books` (admin only): 403 without the admin flag, 422 when the
request body fails the `total_copies ≥ 1` schema bound, 400 on a
duplicate ISBN, otherwise insert with `available_copies = total_copies`. -/
def create_book (s : Store) (caller : User) (title author isbn : String)
    (category : Option String) (total_copies : Int) : Except Err (Book × Store) :=
  if !caller.is_admin then .error .forbidden
  else if total_copies < 1 then .error .validation
  else if (s.books.find? (fun b => b.isbn == isbn)).isSome then .error .conflict
  else
    let book : Book := ⟨s.nextBookId, title, author, isbn, category, total_copies, total_copies⟩
    .ok (book, { s with books := s.books ++ [book], nextBookId := s.nextBookId + 1 })

/-- `GET /books`: each filter is applied only when its query parameter is
truthy (`if category:`, `if available is True:`, `if q:`); the text filter
is `title ILIKE %q% OR author ILIKE %q%`; results are ordered by id
ascending. -/
def list_books (s : Store) (category : Option String) (available : Option Bool)
    (q : Option String) : List Book :=
  let r1 :=
    match category with
    | some c => if c.isEmpty then s.books else s.books.filter (fun b => b.category == some c)
    | none => s.books
  let r2 := if available == some true then r1.filter (fun b => 0 < b.available_copies) else r1
  let r3 :=
    match q with
    | some t =>
      if t.isEmpty then r2
      else r2.filter (fun b => ilike ('%' :: t.data ++ ['%']) b.title ||
                               ilike ('%' :: t.data ++ ['%']) b.author)
    | none => r2
  sortBooksByIdAsc r3

/-- `DELETE /books/{book_id}` (admin only): 404 when absent, 409 when any
Active loan references the book.  Otherwise `db.delete(book); db.commit()`
flushes: `Book.loans` carries no delete cascade and `Loan.book_id` is a
NOT NULL column, so when any loan row (necessarily Returned at this
point) still references the book, SQLAlchemy's default nullify-on-delete
emits `UPDATE loans SET book_id=NULL`, the constraint rejects it
(IntegrityError, HTTP 500) and the transaction rolls back with the book
kept; only a book no loan row references is actually deleted. -/
def delete_book (s : Store) (caller : User) (bookId : Nat) : Except Err Store :=
  if !caller.is_admin then .error .forbidden
  else
    match findBook s.books bookId with
    | none => .error .notFound
    | some _ =>
      if (activeLoansFor s.loans bookId).length ≠ 0 then .error .conflict
      else if (s.loans.filter (fun l => l.book_id == bookId)).length ≠ 0 then .error .internal
      else .ok { s with books := s.books.filter (fun b => b.id != bookId) }

/-- `POST /loans`: 404 when the book is absent, 409 when no copy is
available, 409 when the caller already holds an Active loan of this
book, otherwise decrement `available_copies` and insert an Active loan. -/
def borrow (s : Store) (userId bookId now : Nat) : Except Err (Loan × Store) :=
  match findBook s.books bookId with
  | none => .error .notFound
  | some book =>
    if book.available_copies ≤ 0 then .error .conflict
    else if (findActiveLoanBy s.loans userId book.id).isSome then .error .conflict
    else
      let loan : Loan := ⟨s.nextLoanId, userId, book.id, now, none⟩
      .ok (loan,
        { s with
          books := s.books.map (fun b =>
            if b.id == book.id then { b with available_copies := b.available_copies - 1 } else b),
          loans := s.loans ++ [loan],
          nextLoanId := s.nextLoanId + 1 })

/-- `POST /loans/{loan_id}/return`: 404 when the loan is absent, 403 when
the caller neither owns it nor is an admin, 409 when it is already
Returned; otherwise set `returned_at` and increment the book's
`available_copies`.  When the book row is unexpectedly missing the
handler raises (500) and the transaction rolls back. -/
def return_book (s : Store) (loanId : Nat) (caller : User) (now : Nat) :
    Except Err (Loan × Store) :=
  match findLoan s.loans loanId with
  | none => .error .notFound
  | some loan =>
    if loan.user_id != caller.id && !caller.is_admin then .error .forbidden
    else if loan.returned_at.isSome then .error .conflict
    else
      match findBook s.books loan.book_id with
      | none => .error .internal
      | some _ =>
        .ok ({ loan with returned_at := some now },
          { s with
            loans := s.loans.map (fun l =>
              if l.id == loanId then { l with returned_at := some now } else l),
            books := s.books.map (fun b =>
              if b.id == loan.book_id then
                { b with available_copies := b.available_copies + 1 } else b) })

/-- `GET /users/me/loans`: the caller's loans, most recent id first. -/
def my_loans (s : Store) (userId : Nat) : List Loan :=
  sortLoansByIdDesc (s.loans.filter (fun l => l.user_id == userId))

/-- A committed request against the store: one mutating handler together
with its (already authenticated) caller data and arguments. -/
inductive Op where
  | opSignup (username email : String) (full_name : Option String) (pw_hash : String)
  | opCreateBook (caller : User) (title author isbn : String)
      (category : Option String) (total_copies : Int)
  | opDeleteBook (caller : User) (bookId : Nat)
  | opBorrow (userId bookId now : Nat)
  | opReturn (loanId : Nat) (caller : User) (now : Nat)
  deriving DecidableEq, Repr

/-- The store an operation leaves behind: the handler's result store on
success; the unchanged store on any failure, since every handler raises
before mutating and an uncommitted transaction rolls back. -/
def applyOp (op : Op) (s : Store) : Store :=
  match op with
  | .opSignup username email full_name pw_hash =>
    match signup s username email full_name pw_hash with
    | .ok (_, s2) => s2
    | .error _ => s
  | .opCreateBook caller title author isbn category total_copies =>
    match create_book s caller title author isbn category total_copies with
    | .ok (_, s2) => s2
    | .error _ => s
  | .opDeleteBook caller bookId =>
    match delete_book s caller bookId with
    | .ok s2 => s2
    | .error _ => s
  | .opBorrow userId bookId now =>
    match borrow s userId bookId now with
    | .ok (_, s2) => s2
    | .error _ => s
  | .opReturn loanId caller now =>
    match return_book s loanId caller now with
    | .ok (_, s2) => s2
    | .error _ => s

/-- The store of a fresh deployment, before the bootstrap block runs. -/
def emptyStore : Store := ⟨[], [], [], 1, 1, 1⟩

/-- States reachable by the deployed program: the bootstrap block runs on
the fresh store, then committed operations execute sequentially. -/
inductive Reachable (adminUsername adminPwHash : String) : Store → Prop where
  | init : Reachable adminUsername adminPwHash
      (bootstrap_admin emptyStore adminUsername adminPwHash)
  | step (s : Store) (op : Op) : Reachable adminUsername adminPwHash s →
      Reachable adminUsername adminPwHash (applyOp op s)

/-- Invariants I1 and I4: every book's available count is between 0 and
the total and equals the total minus its number of Active loans. -/
def CopyInv (s : Store) : Prop :=
  ∀ b ∈ s.books, 0 ≤ b.available_copies ∧ b.available_copies ≤ b.total_copies ∧
    b.available_copies = b.total_copies - (activeCount s.loans b.id : Int)

/-- Invariant I2: at most one Active loan per (user, book) pair. -/
def AtMostOneActive (s : Store) : Prop :=
  ∀ l1 ∈ s.loans, ∀ l2 ∈ s.loans,
    l1.returned_at = none → l2.returned_at = none →
    l1.user_id = l2.user_id → l1.book_id = l2.book_id → l1 = l2

/-- Structural well-formedness the database guarantees (unique primary
keys, fresh key counters), the referential fact that Active loans point
at existing books, and the domain invariants I1, I2, I4. -/
def Wf (s : Store) : Prop :=
  (s.books.map Book.id).Nodup ∧
  (s.loans.map Loan.id).Nodup ∧
  (∀ b ∈ s.books, b.id < s.nextBookId) ∧
  (∀ l ∈ s.loans, l.id < s.nextLoanId) ∧
  (∀ l ∈ s.loans, l.returned_at = none → ∃ b ∈ s.books, b.id = l.book_id) ∧
  CopyInv s ∧ AtMostOneActive s

instance (s : Store) : Decidable (CopyInv s) := by
  unfold CopyInv; infer_instance

instance (s : Store) : Decidable (AtMostOneActive s) := by
  unfold AtMostOneActive; infer_instance

instance (s : Store) : Decidable (Wf s) := by
  unfold Wf; infer_instance

/-- What one `borrow` handler has read before it writes anything: whether
the book row was found, the `available_copies` value loaded into the
session, and whether the duplicate-active-loan probe found a row. -/
structure BorrowSnap where
  found : Bool
  avail : Int
  dupActive : Bool
  deriving DecidableEq, Repr

/-- Read phase of `borrow`: the two queries it performs before mutating. -/
def borrowRead (s : Store) (userId bookId : Nat) : BorrowSnap :=
  match findBook s.books bookId with
  | none => ⟨false, 0, false⟩
  | some b => ⟨true, b.available_copies, (findActiveLoanBy s.loans userId bookId).isSome⟩

/-- The handler's precondition checks, evaluated on its snapshot. -/
def snapPasses (sn : BorrowSnap) : Bool :=
  sn.found && !(sn.avail ≤ 0 : Bool) && !sn.dupActive

/-- Write phase of `borrow`: the UPDATE writes `readAvail - 1`, the value
computed from the session's loaded copy, and the INSERT adds the loan;
both commit together. -/
def borrowWrite (s : Store) (userId bookId : Nat) (readAvail : Int) (now : Nat) : Store :=
  { s with
    books := s.books.map (fun b =>
      if b.id == bookId then { b with available_copies := readAvail - 1 } else b),
    loans := s.loans ++ [⟨s.nextLoanId, userId, bookId, now, none⟩],
    nextLoanId := s.nextLoanId + 1 }

/-- Two concurrent `borrow` handlers under the schedule in which both
read phases run before either commit (the interleaving nothing in the
source excludes: the handlers take no lock and set no isolation level).
Each handler aborts during its read phase when its checks fail. -/
def borrowInterleaved (s : Store) (u1 u2 bookId now : Nat) : Bool × Bool × Store :=
  let sn1 := borrowRead s u1 bookId
  let sn2 := borrowRead s u2 bookId
  match snapPasses sn1, snapPasses sn2 with
  | true, true =>
    let s1 := borrowWrite s u1 bookId sn1.avail now
    (true, true, borrowWrite s1 u2 bookId sn2.avail now)
  | true, false => (true, false, borrowWrite s u1 bookId sn1.avail now)
  | false, true => (false, true, borrowWrite s u2 bookId sn2.avail now)
  | false, false => (false, false, s)

/-- Observation: a book's available count in a store (0 when absent). -/
def bavail (s : Store) (bookId : Nat) : Int :=
  match findBook s.books bookId with
  | some b => b.available_copies
  | none => 0

/-- Whether a text contains no SQL LIKE wildcard character. -/
def noWildcard (t : String) : Bool :=
  t.data.all (fun c => !(c == '%') && !(c == '_'))

/-- Case-insensitive substring containment (ASCII lowering), the reading
of the text filter in the specification. -/
def ciSubstr (needle hay : String) : Bool :=
  decide ((needle.data.map Char.toLower) <:+: (hay.data.map Char.toLower))

/-- The listing filter as the specification words it (refinement target
for `list_books`): category by exact equality, availability by a positive
available count, text by case-insensitive substring of title or author —
with a truthiness reading of supplied-but-empty parameters. -/
def listBooksSpecPred (category : Option String) (available : Option Bool)
    (q : Option String) (b : Book) : Bool :=
  (match category with
   | some c => c.isEmpty || (b.category == some c)
   | none => true) &&
  (match available with
   | some true => decide (0 < b.available_copies)
   | some false => true
   | none => true) &&
  (match q with
   | some t => t.isEmpty || ciSubstr t b.title || ciSubstr t b.author
   | none => true)

/-- A small well-formed store used to witness the theorems: an admin, one
standard user, two books, one Active loan on book 1 and one Returned loan
on book 2. -/
def sampleStore : Store :=
  ⟨[⟨1, "admin", "admin@local", some "Admin", "h1", true⟩,
    ⟨2, "alice", "alice@x", none, "h2", false⟩],
   [⟨1, "Dune", "Herbert", "111", some "scifi", 2, 1⟩,
    ⟨2, "Emma", "Austen", "222", none, 1, 1⟩],
   [⟨1, 2, 1, 10, none⟩, ⟨2, 2, 2, 11, some 12⟩],
   3, 3, 3⟩

/-- The admin row of `sampleStore`. -/
def sampleAdmin : User := ⟨1, "admin", "admin@local", some "Admin", "h1", true⟩

/-- The standard user of `sampleStore`. -/
def sampleAlice : User := ⟨2, "alice", "alice@x", none, "h2", false⟩

/-- `sampleStore` extended with a third book that no loan references. -/
def sampleStore3 : Store :=
  { sampleStore with
    books := sampleStore.books ++ [⟨3, "Ilias", "Homer", "333", none, 1, 1⟩],
    nextBookId := 4 }

/-! ### Helper lemmas about lookups, counting and updates -/

theorem findBook_eq_some {books : List Book} {bookId : Nat} {b : Book}
    (h : findBook books bookId = some b) : b ∈ books ∧ b.id = bookId := by
  refine ⟨List.mem_of_find?_eq_some h, ?_⟩
  have := List.find?_some h
  simpa using this

theorem findBook_eq_none {books : List Book} {bookId : Nat}
    (h : findBook books bookId = none) : ∀ b ∈ books, b.id ≠ bookId := by
  intro b hb
  have := List.find?_eq_none.mp h b hb
  simpa using this

theorem findLoan_eq_some {loans : List Loan} {loanId : Nat} {l : Loan}
    (h : findLoan loans loanId = some l) : l ∈ loans ∧ l.id = loanId := by
  refine ⟨List.mem_of_find?_eq_some h, ?_⟩
  have := List.find?_some h
  simpa using this

theorem findActiveLoanBy_eq_none {loans : List Loan} {userId bookId : Nat}
    (h : findActiveLoanBy loans userId bookId = none) :
    ∀ l ∈ loans, l.user_id = userId → l.book_id = bookId → l.returned_at ≠ none := by
  intro l hl hu hb hr
  have := List.find?_eq_none.mp h l hl
  simp [hu, hb, Option.isNone_iff_eq_none, hr] at this

theorem findActiveLoanBy_isSome {loans : List Loan} {userId bookId : Nat}
    (h : (findActiveLoanBy loans userId bookId).isSome = true) :
    ∃ l ∈ loans, l.user_id = userId ∧ l.book_id = bookId ∧ l.returned_at = none := by
  rcases Option.isSome_iff_exists.mp h with ⟨l, hl⟩
  have hmem := List.mem_of_find?_eq_some hl
  have hp := List.find?_some hl
  simp only [Bool.and_eq_true, beq_iff_eq, Option.isNone_iff_eq_none] at hp
  exact ⟨l, hmem, hp.1.1, hp.1.2, hp.2⟩

/-- Updating the unique element with key `k` through `g` changes any
count by exactly the change at that element. -/
theorem countP_map_keyed {α : Type} (p : α → Bool) (g : α → α) (key : α → Nat) (k : Nat) :
    ∀ (xs : List α), (xs.map key).Nodup → ∀ x ∈ xs, key x = k →
      (∀ y, key y ≠ k → g y = y) →
      List.countP p (xs.map g) + (if p x then 1 else 0) =
        List.countP p xs + (if p (g x) then 1 else 0) := by
  intro xs
  induction xs with
  | nil => intro _ x hx; exact absurd hx (List.not_mem_nil x)
  | cons y ys ih =>
    intro hnd x hx hk hg
    simp only [List.map_cons, List.nodup_cons] at hnd
    rcases List.mem_cons.mp hx with rfl | hx2
    · have hys : ys.map g = ys := by
        have h1 : ys.map g = ys.map id := by
          apply List.map_congr_left
          intro z hz
          apply hg
          intro hzk
          exact hnd.1 (by rw [hk, ← hzk]; exact List.mem_map_of_mem key hz)
        simpa using h1
      simp only [List.map_cons, hys, List.countP_cons]
      omega
    · have hyk : key y ≠ k := by
        intro hyk
        exact hnd.1 (by rw [hyk, ← hk]; exact List.mem_map_of_mem key hx2)
      have hgy : g y = y := hg y hyk
      simp only [List.map_cons, hgy, List.countP_cons]
      have := ih hnd.2 x hx2 hk hg
      omega

theorem activeCount_eq_countP (loans : List Loan) (bookId : Nat) :
    activeCount loans bookId =
      List.countP (fun l => l.book_id == bookId && l.returned_at.isNone) loans := by
  simp [activeCount, activeLoansFor, List.countP_eq_length_filter]

theorem activeCount_append (loans : List Loan) (l : Loan) (bookId : Nat) :
    activeCount (loans ++ [l]) bookId =
      activeCount loans bookId +
        (if l.book_id = bookId ∧ l.returned_at = none then 1 else 0) := by
  simp only [activeCount_eq_countP, List.countP_append, List.countP_cons, List.countP_nil]
  by_cases h1 : l.book_id = bookId <;>
    by_cases h2 : l.returned_at = none <;>
      simp [h1, h2, Option.isNone_iff_eq_none]

/-- A keyed find survives a key-preserving map of the unique matching
element. -/
theorem find?_map_keyed {α : Type} (g : α → α) (key : α → Nat) (k : Nat) :
    ∀ (xs : List α) (x : α), xs.find? (fun y => key y == k) = some x →
      (∀ y, key (g y) = key y) →
      (xs.map g).find? (fun y => key y == k) = some (g x) := by
  intro xs
  induction xs with
  | nil => intro x hx; simp [List.find?] at hx
  | cons y ys ih =>
    intro x hx hg
    by_cases hyk : key y = k
    · rw [List.find?_cons_of_pos _ (by simpa using hyk)] at hx
      rw [List.map_cons, List.find?_cons_of_pos _ (by simp [hg, hyk])]
      simp at hx
      rw [hx]
    · rw [List.find?_cons_of_neg _ (by simpa using hyk)] at hx
      rw [List.map_cons, List.find?_cons_of_neg _ (by simp [hg, hyk])]
      exact ih x hx hg

theorem mem_insertAscBook {b x : Book} {l : List Book} :
    b ∈ insertAscBook x l ↔ b = x ∨ b ∈ l := by
  induction l with
  | nil => simp [insertAscBook]
  | cons y ys ih =>
    by_cases h : x.id ≤ y.id
    · simp [insertAscBook, h]
    · simp [insertAscBook, h, ih]
      tauto

theorem mem_sortBooksByIdAsc {b : Book} {l : List Book} :
    b ∈ sortBooksByIdAsc l ↔ b ∈ l := by
  induction l with
  | nil => simp [sortBooksByIdAsc]
  | cons y ys ih =>
    simp only [sortBooksByIdAsc, List.foldr_cons] at *
    rw [mem_insertAscBook, ih, List.mem_cons]

theorem book_eq_of_id_eq {xs : List Book} (hnd : (xs.map Book.id).Nodup) {a b : Book}
    (ha : a ∈ xs) (hb : b ∈ xs) (hid : a.id = b.id) : a = b :=
  List.inj_on_of_nodup_map hnd ha hb hid

/-! ### Preservation of well-formedness by every committed operation -/

theorem wf_signup (s : Store) (username email : String) (fn : Option String) (pw : String)
    (h : Wf s) : Wf (applyOp (.opSignup username email fn pw) s) := by
  by_cases hc : (s.users.find? fun u => u.username == username || u.email == email).isSome
  · simpa [applyOp, signup, hc] using h
  · simp only [applyOp, signup, hc, Bool.false_eq_true, if_false, if_neg]
    exact h

theorem wf_bootstrap (a p : String) : Wf (bootstrap_admin emptyStore a p) := by
  simp [bootstrap_admin, emptyStore, Wf, CopyInv, AtMostOneActive]

theorem wf_create_book (s : Store) (caller : User) (t a i : String) (c : Option String)
    (tc : Int) (h : Wf s) : Wf (applyOp (.opCreateBook caller t a i c tc) s) := by
  by_cases hadm : caller.is_admin
  case neg => simpa [applyOp, create_book, hadm] using h
  by_cases htc : tc < 1
  case pos => simpa [applyOp, create_book, hadm, htc] using h
  by_cases hdup : (s.books.find? fun b => b.isbn == i).isSome
  case pos => simpa [applyOp, create_book, hadm, htc, hdup] using h
  obtain ⟨hbn, hln, hbb, hlb, href, hcopy, honce⟩ := h
  simp only [applyOp, create_book, hadm, htc, hdup, Bool.not_true, Bool.false_eq_true,
    if_false, if_neg, ite_false]
  constructor
  · -- book ids stay distinct: the new id is the fresh counter
    simp only [List.map_append, List.map_cons, List.map_nil, List.nodup_append]
    refine ⟨hbn, List.nodup_singleton _, ?_⟩
    intro x hx hx1
    simp only [List.mem_singleton] at hx1
    rcases List.mem_map.mp hx with ⟨b, hb, rfl⟩
    exact absurd (hx1 ▸ hbb b hb) (lt_irrefl _)
  refine ⟨hln, ?_, ?_, ?_, ?_, ?_⟩
  · intro b hb
    rcases List.mem_append.mp hb with hb | hb
    · exact Nat.lt_succ_of_lt (hbb b hb)
    · simp only [List.mem_singleton] at hb
      subst hb
      exact Nat.lt_succ_self _
  · intro l hl
    exact hlb l hl
  · intro l hl hr
    rcases href l hl hr with ⟨b, hb, hid⟩
    exact ⟨b, List.mem_append.mpr (Or.inl hb), hid⟩
  · intro b hb
    rcases List.mem_append.mp hb with hb | hb
    · exact hcopy b hb
    · simp only [List.mem_singleton] at hb
      subst hb
      have hzero : activeCount s.loans s.nextBookId = 0 := by
        rw [activeCount_eq_countP]
        rw [List.countP_eq_zero]
        intro l hl hp
        simp only [Bool.and_eq_true, beq_iff_eq, Option.isNone_iff_eq_none] at hp
        rcases href l hl hp.2 with ⟨b, hb, hid⟩
        exact absurd (hid ▸ hp.1 ▸ hbb b hb) (lt_irrefl _)
      simp only [hzero]
      refine ⟨by omega, le_refl _, by omega⟩
  · intro l1 h1 l2 h2
    exact honce l1 h1 l2 h2

theorem wf_delete_book (s : Store) (caller : User) (bookId : Nat)
    (h : Wf s) : Wf (applyOp (.opDeleteBook caller bookId) s) := by
  by_cases hadm : caller.is_admin
  case neg => simpa [applyOp, delete_book, hadm] using h
  match hfb : findBook s.books bookId with
  | none => simpa [applyOp, delete_book, hadm, hfb] using h
  | some bk =>
    by_cases hact : (activeLoansFor s.loans bookId).length ≠ 0
    case pos => simpa [applyOp, delete_book, hadm, hfb, hact] using h
    by_cases hrows : (s.loans.filter (fun l => l.book_id == bookId)).length ≠ 0
    case pos => simpa [applyOp, delete_book, hadm, hfb, hact, hrows] using h
    obtain ⟨hbn, hln, hbb, hlb, href, hcopy, honce⟩ := h
    simp only [applyOp, delete_book, hadm, hfb, hact, hrows, Bool.not_true,
      Bool.false_eq_true, if_false, if_neg, ite_false]
    have hsub : List.Sublist (s.books.filter fun b => b.id != bookId) s.books :=
      List.filter_sublist s.books
    refine ⟨?_, hln, ?_, ?_, ?_, ?_, ?_⟩
    · exact List.Nodup.sublist (List.Sublist.map Book.id hsub) hbn
    · intro b hb
      exact hbb b (List.mem_of_mem_filter hb)
    · intro l hl
      exact hlb l hl
    · intro l hl hr
      rcases href l hl hr with ⟨b, hb, hid⟩
      refine ⟨b, List.mem_filter.mpr ⟨hb, ?_⟩, hid⟩
      simp only [bne_iff_ne, ne_eq]
      intro hbid
      apply hact
      rw [activeLoansFor]
      have : l ∈ s.loans.filter (fun l => l.book_id == bookId && l.returned_at.isNone) := by
        refine List.mem_filter.mpr ⟨hl, ?_⟩
        simp [← hbid, hid, Option.isNone_iff_eq_none, hr]
      intro hlen
      rw [List.length_eq_zero] at hlen
      rw [hlen] at this
      exact absurd this (List.not_mem_nil l)
    · intro b hb
      exact hcopy b (List.mem_of_mem_filter hb)
    · intro l1 h1 l2 h2
      exact honce l1 h1 l2 h2

/-- A map that preserves a key leaves the key image of a list unchanged. -/
theorem map_map_key {α β : Type} (key : α → β) (f : α → α)
    (hf : ∀ a, key (f a) = key a) (xs : List α) :
    (xs.map f).map key = xs.map key := by
  rw [List.map_map]
  exact List.map_congr_left fun a _ => hf a

theorem wf_borrow (s : Store) (userId bookId now : Nat) (h : Wf s) :
    Wf (applyOp (.opBorrow userId bookId now) s) := by
  match hfb : findBook s.books bookId with
  | none => simpa [applyOp, borrow, hfb] using h
  | some book =>
    by_cases hav : book.available_copies ≤ 0
    case pos => simpa [applyOp, borrow, hfb, hav] using h
    by_cases hdup : (findActiveLoanBy s.loans userId book.id).isSome
    case pos => simpa [applyOp, borrow, hfb, hav, hdup] using h
    obtain ⟨hbn, hln, hbb, hlb, href, hcopy, honce⟩ := h
    obtain ⟨hbmem, hbid⟩ := findBook_eq_some hfb
    have hdup2 : findActiveLoanBy s.loans userId book.id = none :=
      Option.not_isSome_iff_eq_none.mp hdup
    simp only [applyOp, borrow, hfb, hav, hdup, if_neg, ite_false, Bool.false_eq_true]
    have hidf : ∀ b : Book,
        ((fun b : Book => if b.id == book.id then
          { b with available_copies := b.available_copies - 1 } else b) b).id = b.id := by
      intro b
      by_cases h2 : b.id = book.id <;> simp [h2]
    refine ⟨?_, ?_, ?_, ?_, ?_, ?_, ?_⟩
    · rw [map_map_key Book.id _ hidf]
      exact hbn
    · simp only [List.map_append, List.map_cons, List.map_nil, List.nodup_append]
      refine ⟨hln, List.nodup_singleton _, ?_⟩
      intro x hx hx1
      simp only [List.mem_singleton] at hx1
      rcases List.mem_map.mp hx with ⟨l, hl, rfl⟩
      exact absurd (hx1 ▸ hlb l hl) (lt_irrefl _)
    · intro b2 hb2
      rcases List.mem_map.mp hb2 with ⟨b, hb, rfl⟩
      rw [hidf b]
      exact hbb b hb
    · intro l hl
      rcases List.mem_append.mp hl with hl | hl
      · exact Nat.lt_succ_of_lt (hlb l hl)
      · simp only [List.mem_singleton] at hl
        subst hl
        exact Nat.lt_succ_self _
    · intro l hl hr
      rcases List.mem_append.mp hl with hl | hl
      · rcases href l hl hr with ⟨b, hb, hid⟩
        refine ⟨_, List.mem_map_of_mem _ hb, ?_⟩
        rw [hidf b]
        exact hid
      · simp only [List.mem_singleton] at hl
        subst hl
        refine ⟨_, List.mem_map_of_mem _ hbmem, ?_⟩
        rw [hidf book]
    · intro b2 hb2
      rcases List.mem_map.mp hb2 with ⟨b, hb, rfl⟩
      have hacc : ∀ bid, activeCount (s.loans ++ [⟨s.nextLoanId, userId, book.id, now, none⟩]) bid
          = activeCount s.loans bid + (if book.id = bid then 1 else 0) := by
        intro bid
        rw [activeCount_append]
        simp
      obtain ⟨hge, hle, heq⟩ := hcopy b hb
      by_cases hcase : b.id = book.id
      · have hbeq : b = book := book_eq_of_id_eq hbn hb hbmem hcase
        have hav2 : ¬ b.available_copies ≤ 0 := by rw [hbeq]; exact hav
        rw [hcase] at heq
        simp only [hcase, beq_self_eq_true, if_pos, ite_true, hacc]
        push_cast
        refine ⟨by omega, by omega, by omega⟩
      · simp only [beq_iff_eq, hcase, ite_false, if_neg, hacc]
        rw [if_neg (fun hcc => hcase hcc.symm)]
        simpa using hcopy b hb
    · intro l1 h1 l2 h2 hr1 hr2 hu hb
      rcases List.mem_append.mp h1 with h1 | h1 <;> rcases List.mem_append.mp h2 with h2 | h2
      · exact honce l1 h1 l2 h2 hr1 hr2 hu hb
      · simp only [List.mem_singleton] at h2
        subst h2
        exact absurd hr1 (findActiveLoanBy_eq_none hdup2 l1 h1 (by simpa using hu) (by simpa using hb))
      · simp only [List.mem_singleton] at h1
        subst h1
        exact absurd hr2 (findActiveLoanBy_eq_none hdup2 l2 h2 (by simpa using hu.symm) (by simpa using hb.symm))
      · simp only [List.mem_singleton] at h1 h2
        rw [h1, h2]

theorem wf_return (s : Store) (loanId : Nat) (caller : User) (now : Nat) (h : Wf s) :
    Wf (applyOp (.opReturn loanId caller now) s) := by
  match hfl : findLoan s.loans loanId with
  | none => simpa [applyOp, return_book, hfl] using h
  | some loan =>
    by_cases hown : loan.user_id != caller.id && !caller.is_admin
    case pos => simpa [applyOp, return_book, hfl, hown] using h
    by_cases hret : loan.returned_at.isSome
    case pos => simpa [applyOp, return_book, hfl, hown, hret] using h
    have hract : loan.returned_at = none := Option.not_isSome_iff_eq_none.mp hret
    obtain ⟨hbn, hln, hbb, hlb, href, hcopy, honce⟩ := h
    obtain ⟨hlmem, hlid⟩ := findLoan_eq_some hfl
    match hfb : findBook s.books loan.book_id with
    | none =>
      exact absurd (findBook_eq_none hfb) (by
        push_neg
        rcases href loan hlmem hract with ⟨b, hb, hid⟩
        exact ⟨b, hb, hid⟩)
    | some bk =>
      obtain ⟨hbkmem, hbkid⟩ := findBook_eq_some hfb
      simp only [applyOp, return_book, hfl, hown, hret, hfb, if_neg, ite_false,
        Bool.false_eq_true]
      have hidg : ∀ l : Loan,
          ((fun l : Loan => if l.id == loanId then { l with returned_at := some now } else l) l).id
            = l.id := by
        intro l
        by_cases h2 : l.id = loanId <;> simp [h2]
      have hidf : ∀ b : Book,
          ((fun b : Book => if b.id == loan.book_id then
            { b with available_copies := b.available_copies + 1 } else b) b).id = b.id := by
        intro b
        by_cases h2 : b.id = loan.book_id <;> simp [h2]
      have hcount : ∀ bid, activeCount (s.loans.map (fun l =>
          if l.id == loanId then { l with returned_at := some now } else l)) bid
            + (if loan.book_id = bid then 1 else 0)
          = activeCount s.loans bid := by
        intro bid
        have := countP_map_keyed (fun l => l.book_id == bid && l.returned_at.isNone)
          (fun l => if l.id == loanId then { l with returned_at := some now } else l)
          Loan.id loanId s.loans hln loan hlmem hlid
          (by intro y hy; simp [hy])
        rw [activeCount_eq_countP, activeCount_eq_countP]
        have hploan : (fun l : Loan => l.book_id == bid && l.returned_at.isNone) loan
            = (loan.book_id == bid) := by
          simp [hract]
        have hpg : (fun l : Loan => l.book_id == bid && l.returned_at.isNone)
            ((fun l : Loan => if l.id == loanId then { l with returned_at := some now } else l)
              loan) = false := by
          simp [hlid]
        rw [hploan, hpg] at this
        simp only [Bool.false_eq_true, if_false, ite_false, add_zero] at this
        by_cases hcc : loan.book_id = bid
        · rw [if_pos hcc]
          rw [← this]
          simp [hcc]
        · rw [if_neg hcc]
          rw [← this]
          simp [hcc]
    -- remaining components
      have hactive_sub : ∀ l2, l2 ∈ s.loans.map (fun l =>
          if l.id == loanId then { l with returned_at := some now } else l) →
            l2.returned_at = none → l2 ∈ s.loans ∧ l2.id ≠ loanId := by
        intro l2 hl2 hr2
        rcases List.mem_map.mp hl2 with ⟨l, hl, rfl⟩
        by_cases h2 : l.id = loanId
        · simp only [h2, beq_self_eq_true, if_pos, ite_true] at hr2
          exact absurd hr2 (by simp)
        · simp only [beq_iff_eq, h2, ite_false, if_neg]
          exact ⟨hl, h2⟩
      refine ⟨?_, ?_, ?_, ?_, ?_, ?_, ?_⟩
      · rw [map_map_key Book.id _ hidf]
        exact hbn
      · rw [map_map_key Loan.id _ hidg]
        exact hln
      · intro b2 hb2
        rcases List.mem_map.mp hb2 with ⟨b, hb, rfl⟩
        rw [hidf b]
        exact hbb b hb
      · intro l2 hl2
        rcases List.mem_map.mp hl2 with ⟨l, hl, rfl⟩
        rw [hidg l]
        exact hlb l hl
      · intro l2 hl2 hr2
        obtain ⟨hl2mem, _⟩ := hactive_sub l2 hl2 hr2
        rcases href l2 hl2mem hr2 with ⟨b, hb, hid⟩
        refine ⟨_, List.mem_map_of_mem _ hb, ?_⟩
        rw [hidf b]
        exact hid
      · intro b2 hb2
        rcases List.mem_map.mp hb2 with ⟨b, hb, rfl⟩
        obtain ⟨hge, hle, heq⟩ := hcopy b hb
        have hacpos : loan.book_id = b.id → 1 ≤ activeCount s.loans b.id := by
          intro hcc
          rw [activeCount_eq_countP]
          have : 0 < List.countP (fun l => l.book_id == b.id && l.returned_at.isNone) s.loans := by
            rw [List.countP_pos_iff]
            exact ⟨loan, hlmem, by simp [hcc, hract]⟩
          omega
        by_cases hcase : b.id = loan.book_id
        · have h1 : 1 ≤ activeCount s.loans b.id := hacpos hcase.symm
          have hc2 := hcount b.id
          rw [if_pos hcase.symm] at hc2
          rw [hcase] at heq h1 hc2
          simp only [hcase, beq_self_eq_true, if_pos, ite_true]
          refine ⟨by omega, by omega, by omega⟩
        · have hc2 := hcount b.id
          rw [if_neg (fun hcc => hcase hcc.symm), add_zero] at hc2
          have hb2eq : (if (b.id == loan.book_id) = true then
              { b with available_copies := b.available_copies + 1 } else b) = b := by
            simp [hcase]
          rw [hb2eq, hc2]
          exact ⟨hge, hle, heq⟩
      · intro l1 h1 l2 h2 hr1 hr2 hu hb
        obtain ⟨h1m, _⟩ := hactive_sub l1 h1 hr1
        obtain ⟨h2m, _⟩ := hactive_sub l2 h2 hr2
        exact honce l1 h1m l2 h2m hr1 hr2 hu hb

/-- Every committed operation preserves well-formedness. -/
theorem wf_applyOp (op : Op) (s : Store) (h : Wf s) : Wf (applyOp op s) := by
  cases op with
  | opSignup username email fn pw => exact wf_signup s username email fn pw h
  | opCreateBook caller t a i c tc => exact wf_create_book s caller t a i c tc h
  | opDeleteBook caller bookId => exact wf_delete_book s caller bookId h
  | opBorrow userId bookId now => exact wf_borrow s userId bookId now h
  | opReturn loanId caller now => exact wf_return s loanId caller now h

/-- Every reachable state is well formed. -/
theorem reachable_wf (a p : String) (s : Store)
    (h : Reachable a p s) : Wf s := by
  induction h with
  | init => exact wf_bootstrap a p
  | step s2 op _ ih => exact wf_applyOp op s2 ih

/-! ### Result shapes of the handlers on success -/

theorem signup_ok {s : Store} {username email : String} {fn : Option String} {pw : String}
    {u : User} {s2 : Store} (h : signup s username email fn pw = .ok (u, s2)) :
    u = ⟨s.nextUserId, username, email, fn, pw, false⟩ ∧
      s2 = { s with users := s.users ++ [u], nextUserId := s.nextUserId + 1 } := by
  by_cases h1 : (s.users.find? fun u => u.username == username || u.email == email).isSome
  · simp [signup, h1] at h
  · simp only [signup, h1, Bool.false_eq_true, if_false, if_neg, ite_false,
      Except.ok.injEq, Prod.mk.injEq] at h
    obtain ⟨hu, hs⟩ := h
    subst hu
    exact ⟨rfl, hs.symm⟩

theorem create_book_ok {s : Store} {caller : User} {t a i : String} {c : Option String}
    {tc : Int} {b : Book} {s2 : Store}
    (h : create_book s caller t a i c tc = .ok (b, s2)) :
    caller.is_admin = true ∧ 1 ≤ tc ∧
      b = ⟨s.nextBookId, t, a, i, c, tc, tc⟩ ∧
      s2 = { s with books := s.books ++ [b], nextBookId := s.nextBookId + 1 } := by
  by_cases h1 : caller.is_admin
  case neg => simp [create_book, h1] at h
  by_cases h2 : tc < 1
  case pos => simp [create_book, h1, h2] at h
  by_cases h3 : (s.books.find? fun b => b.isbn == i).isSome
  case pos => simp [create_book, h1, h2, h3] at h
  simp only [create_book, h1, h2, h3, Bool.not_true, Bool.false_eq_true, if_false,
    if_neg, ite_false, Except.ok.injEq, Prod.mk.injEq] at h
  obtain ⟨hb, hs⟩ := h
  subst hb
  exact ⟨h1, by omega, rfl, hs.symm⟩

theorem delete_book_ok {s : Store} {caller : User} {bookId : Nat} {s2 : Store}
    (h : delete_book s caller bookId = .ok s2) :
    caller.is_admin = true ∧ (∃ bk, findBook s.books bookId = some bk) ∧
      activeLoansFor s.loans bookId = [] ∧
      s.loans.filter (fun l => l.book_id == bookId) = [] ∧
      s2 = { s with books := s.books.filter (fun b => b.id != bookId) } := by
  by_cases h1 : caller.is_admin
  case neg => simp [delete_book, h1] at h
  match hfb : findBook s.books bookId with
  | none => simp [delete_book, h1, hfb] at h
  | some bk =>
    by_cases h2 : (activeLoansFor s.loans bookId).length ≠ 0
    case pos => simp [delete_book, h1, hfb, h2] at h
    by_cases h3 : (s.loans.filter (fun l => l.book_id == bookId)).length ≠ 0
    case pos => simp [delete_book, h1, hfb, h2, h3] at h
    simp only [delete_book, h1, hfb, h2, h3, Bool.not_true, Bool.false_eq_true, if_false,
      if_neg, ite_false, Except.ok.injEq] at h
    refine ⟨h1, ⟨bk, rfl⟩, ?_, ?_, h.symm⟩
    · push_neg at h2
      exact List.length_eq_zero.mp h2
    · push_neg at h3
      exact List.length_eq_zero.mp h3

theorem borrow_ok {s : Store} {userId bookId now : Nat} {l : Loan} {s2 : Store}
    (h : borrow s userId bookId now = .ok (l, s2)) :
    ∃ book, findBook s.books bookId = some book ∧
      ¬ book.available_copies ≤ 0 ∧
      findActiveLoanBy s.loans userId book.id = none ∧
      l = ⟨s.nextLoanId, userId, book.id, now, none⟩ ∧
      s2 = { s with
        books := s.books.map (fun b => if b.id == book.id then
          { b with available_copies := b.available_copies - 1 } else b),
        loans := s.loans ++ [l], nextLoanId := s.nextLoanId + 1 } := by
  match hfb : findBook s.books bookId with
  | none => simp [borrow, hfb] at h
  | some book =>
    by_cases h2 : book.available_copies ≤ 0
    case pos => simp [borrow, hfb, h2] at h
    by_cases h3 : (findActiveLoanBy s.loans userId book.id).isSome
    case pos => simp [borrow, hfb, h2, h3] at h
    simp only [borrow, hfb, h2, h3, Bool.false_eq_true, if_false, if_neg, ite_false,
      Except.ok.injEq, Prod.mk.injEq] at h
    obtain ⟨hl, hs⟩ := h
    subst hl
    exact ⟨book, rfl, h2, Option.not_isSome_iff_eq_none.mp h3, rfl, hs.symm⟩

theorem return_book_ok {s : Store} {loanId : Nat} {caller : User} {now : Nat}
    {l : Loan} {s2 : Store} (h : return_book s loanId caller now = .ok (l, s2)) :
    ∃ loan bk, findLoan s.loans loanId = some loan ∧
      (loan.user_id = caller.id ∨ caller.is_admin = true) ∧
      loan.returned_at = none ∧
      findBook s.books loan.book_id = some bk ∧
      l = { loan with returned_at := some now } ∧
      s2 = { s with
        loans := s.loans.map (fun l2 =>
          if l2.id == loanId then { l2 with returned_at := some now } else l2),
        books := s.books.map (fun b =>
          if b.id == loan.book_id then
            { b with available_copies := b.available_copies + 1 } else b) } := by
  match hfl : findLoan s.loans loanId with
  | none => simp [return_book, hfl] at h
  | some loan =>
    by_cases h1 : loan.user_id != caller.id && !caller.is_admin
    case pos => simp [return_book, hfl, h1] at h
    by_cases h2 : loan.returned_at.isSome
    case pos => simp [return_book, hfl, h1, h2] at h
    match hfb : findBook s.books loan.book_id with
    | none => simp [return_book, hfl, h1, h2, hfb] at h
    | some bk =>
      simp only [return_book, hfl, h1, h2, hfb, Bool.false_eq_true, if_false, if_neg,
        ite_false, Except.ok.injEq, Prod.mk.injEq] at h
      obtain ⟨hl, hs⟩ := h
      refine ⟨loan, bk, rfl, ?_, Option.not_isSome_iff_eq_none.mp h2, hfb, hl.symm, hs.symm⟩
      by_cases ho : loan.user_id = caller.id
      · exact Or.inl ho
      · right
        simpa [ho] using h1

/-- The users relation is only ever extended, and only by `signup` with a
non-admin row (within `applyOp`). -/
theorem users_applyOp (op : Op) (s : Store) :
    (applyOp op s).users = s.users ∨
      ∃ u2, (applyOp op s).users = s.users ++ [u2] ∧ u2.is_admin = false := by
  cases op with
  | opSignup username email fn pw =>
    match hr : signup s username email fn pw with
    | .error e => left; simp [applyOp, hr]
    | .ok (u, s2) =>
      obtain ⟨hu, hs⟩ := signup_ok hr
      right
      exact ⟨u, by simp [applyOp, hr, hs], by rw [hu]⟩
  | opCreateBook caller t a i c tc =>
    left
    match hr : create_book s caller t a i c tc with
    | .error e => simp [applyOp, hr]
    | .ok (b, s2) =>
      obtain ⟨_, _, _, hs⟩ := create_book_ok hr
      simp [applyOp, hr, hs]
  | opDeleteBook caller bookId =>
    left
    match hr : delete_book s caller bookId with
    | .error e => simp [applyOp, hr]
    | .ok s2 =>
      obtain ⟨_, _, _, _, hs⟩ := delete_book_ok hr
      simp [applyOp, hr, hs]
  | opBorrow userId bookId now =>
    left
    match hr : borrow s userId bookId now with
    | .error e => simp [applyOp, hr]
    | .ok (l, s2) =>
      obtain ⟨book, _, _, _, _, hs⟩ := borrow_ok hr
      simp [applyOp, hr, hs]
  | opReturn loanId caller now =>
    left
    match hr : return_book s loanId caller now with
    | .error e => simp [applyOp, hr]
    | .ok (l, s2) =>
      obtain ⟨loan, bk, _, _, _, _, _, hs⟩ := return_book_ok hr
      simp [applyOp, hr, hs]

theorem mem_insertDescLoan {l x : Loan} {ls : List Loan} :
    l ∈ insertDescLoan x ls ↔ l = x ∨ l ∈ ls := by
  induction ls with
  | nil => simp [insertDescLoan]
  | cons y ys ih =>
    by_cases h : y.id ≤ x.id
    · simp [insertDescLoan, h]
    · simp [insertDescLoan, h, ih]
      tauto

theorem mem_sortLoansByIdDesc {l : Loan} {ls : List Loan} :
    l ∈ sortLoansByIdDesc ls ↔ l ∈ ls := by
  induction ls with
  | nil => simp [sortLoansByIdDesc]
  | cons y ys ih =>
    simp only [sortLoansByIdDesc, List.foldr_cons] at *
    rw [mem_insertDescLoan, ih, List.mem_cons]

/-- Everything the listing returns is a stored book. -/
theorem mem_list_books {s : Store} {category : Option String} {available : Option Bool}
    {q : Option String} {b : Book} (h : b ∈ list_books s category available q) :
    b ∈ s.books := by
  have key1 : ∀ (cond : Bool) (l : List Book) (p : Book → Bool) (x : Book),
      x ∈ (if cond then l else l.filter p) → x ∈ l := by
    intro cond l p x hx
    split at hx
    · exact hx
    · exact List.mem_of_mem_filter hx
  have key2 : ∀ (cond : Bool) (l : List Book) (p : Book → Bool) (x : Book),
      x ∈ (if cond then l.filter p else l) → x ∈ l := by
    intro cond l p x hx
    split at hx
    · exact List.mem_of_mem_filter hx
    · exact hx
  rcases category with _ | c <;> rcases q with _ | t <;>
    simp only [list_books, mem_sortBooksByIdAsc] at h
  · exact key2 _ _ _ _ h
  · exact key2 _ _ _ _ (key1 _ _ _ _ h)
  · exact key1 _ _ _ _ (key2 _ _ _ _ h)
  · exact key1 _ _ _ _ (key2 _ _ _ _ (key1 _ _ _ _ h))

/-! ### The claims -/

/-- C1: after every committed operation (signup, createTitle, borrow,
returnLoan, deleteTitle) executed sequentially from any state satisfying
the invariant (the documented invariants together with the primary-key
uniqueness the database guarantees), every Title satisfies
`0 ≤ available_copies ≤ total_copies` and `available_copies` equals
`total_copies` minus the number of Active loans referencing it. -/
theorem C1_copy_accounting_invariant (s : Store) (op : Op) (h : Wf s) :
    CopyInv (applyOp op s) :=
  (wf_applyOp op s h).2.2.2.2.2.1

theorem C1_witness :
    Wf sampleStore ∧ CopyInv (applyOp (Op.opBorrow 2 2 20) sampleStore) :=
  ⟨by decide, C1_copy_accounting_invariant sampleStore (Op.opBorrow 2 2 20) (by decide)⟩

/-- C5: every reachable store state has at most one Active loan per
(user, title) pair, and every committed operation preserves the property
from any well-formed state. -/
theorem C5_at_most_one_active_loan :
    (∀ a p s, Reachable a p s → AtMostOneActive s) ∧
    (∀ s (op : Op), Wf s → AtMostOneActive (applyOp op s)) :=
  ⟨fun a p s h => (reachable_wf a p s h).2.2.2.2.2.2,
   fun s op h => (wf_applyOp op s h).2.2.2.2.2.2⟩

theorem C5_witness : AtMostOneActive (applyOp (Op.opBorrow 1 1 20) sampleStore) :=
  C5_at_most_one_active_loan.2 sampleStore (Op.opBorrow 1 1 20) (by decide)

/-- C9: every user record created through signup carries
`is_admin = false`; the startup bootstrap inserts nothing when a user
with the configured admin handle already exists; and in every reachable
state the only admin accounts carry the configured admin handle. -/
theorem C9_admin_provenance (a p : String) :
    (∀ (s : Store) (username email : String) (fn : Option String) (pw : String)
        (u : User) (s2 : Store), signup s username email fn pw = Except.ok (u, s2) →
          u.is_admin = false) ∧
    (∀ (s : Store) (p2 : String), (∃ u ∈ s.users, u.username = a) →
      bootstrap_admin s a p2 = s) ∧
    (∀ s, Reachable a p s → ∀ u ∈ s.users, u.is_admin = true → u.username = a) := by
  refine ⟨?_, ?_, ?_⟩
  · intro s username email fn pw u s2 hok
    rw [(signup_ok hok).1]
  · intro s p2 hex
    rcases hex with ⟨u, hu, hname⟩
    have hfind : (s.users.find? fun u => u.username == a).isSome := by
      rw [List.find?_isSome]
      exact ⟨u, hu, by simp [hname]⟩
    simp [bootstrap_admin, hfind]
  · intro s hreach
    induction hreach with
    | init =>
      intro u hu hadm
      simp only [bootstrap_admin, emptyStore, List.find?_nil, Option.isSome_none,
        Bool.false_eq_true, if_false, if_neg, ite_false, List.nil_append,
        List.mem_singleton] at hu
      rw [hu]
    | step s2 op hr ih =>
      intro u hu hadm
      rcases users_applyOp op s2 with hsame | ⟨u2, happ, hu2⟩
      · exact ih u (hsame ▸ hu) hadm
      · rw [happ] at hu
        rcases List.mem_append.mp hu with hu | hu
        · exact ih u hu hadm
        · simp only [List.mem_singleton] at hu
          subst hu
          rw [hu2] at hadm
          exact absurd hadm (by simp)

theorem C9_witness : bootstrap_admin sampleStore "admin" "x" = sampleStore :=
  (C9_admin_provenance "admin" "p").2.1 sampleStore "x" ⟨sampleAdmin, by decide, by decide⟩

/-- C2: for every well-formed state, borrow fails with NotFound when the
Title is absent; otherwise with Conflict when no copy is available;
otherwise with Conflict when the caller already holds an Active loan of
it; otherwise it decrements that Title's `available_copies` by exactly
one and appends one new Active loan for (userId, titleId); every failure
leaves the store unchanged. -/
theorem C2_borrow_case_analysis (s : Store) (userId bookId now : Nat) (h : Wf s) :
    (findBook s.books bookId = none →
      borrow s userId bookId now = Except.error Err.notFound ∧
        applyOp (Op.opBorrow userId bookId now) s = s) ∧
    (∀ book, findBook s.books bookId = some book →
      (book.available_copies = 0 →
        borrow s userId bookId now = Except.error Err.conflict ∧
          applyOp (Op.opBorrow userId bookId now) s = s) ∧
      (book.available_copies ≠ 0 →
        ((∃ l ∈ s.loans, l.user_id = userId ∧ l.book_id = bookId ∧ l.returned_at = none) →
          borrow s userId bookId now = Except.error Err.conflict ∧
            applyOp (Op.opBorrow userId bookId now) s = s) ∧
        ((¬ ∃ l ∈ s.loans, l.user_id = userId ∧ l.book_id = bookId ∧ l.returned_at = none) →
          ∃ l2 s2, borrow s userId bookId now = Except.ok (l2, s2) ∧
            applyOp (Op.opBorrow userId bookId now) s = s2 ∧
            l2.user_id = userId ∧ l2.book_id = bookId ∧ l2.returned_at = none ∧
            s2.loans = s.loans ++ [l2] ∧
            s2.books = s.books.map (fun b => if b.id == bookId then
              { b with available_copies := b.available_copies - 1 } else b)))) := by
  obtain ⟨hbn, hln, hbb, hlb, href, hcopy, honce⟩ := h
  refine ⟨?_, ?_⟩
  · intro hfb
    exact ⟨by simp [borrow, hfb], by simp [applyOp, borrow, hfb]⟩
  · intro book hfb
    obtain ⟨hbmem, hbid⟩ := findBook_eq_some hfb
    obtain ⟨hge, _, _⟩ := hcopy book hbmem
    refine ⟨?_, ?_⟩
    · intro hz
      have hle0 : book.available_copies ≤ 0 := by omega
      exact ⟨by simp [borrow, hfb, hle0], by simp [applyOp, borrow, hfb, hle0]⟩
    · intro hnz
      have hpos : ¬ book.available_copies ≤ 0 := by omega
      refine ⟨?_, ?_⟩
      · intro hex
        have hdup : (findActiveLoanBy s.loans userId book.id).isSome := by
          rcases hex with ⟨l, hl, hu, hb, hr⟩
          rw [findActiveLoanBy, List.find?_isSome]
          refine ⟨l, hl, ?_⟩
          simp [hu, hb, hbid, hr, Option.isNone_iff_eq_none]
        exact ⟨by simp [borrow, hfb, hpos, hdup],
          by simp [applyOp, borrow, hfb, hpos, hdup]⟩
      · intro hnex
        have hdup : ¬ (findActiveLoanBy s.loans userId book.id).isSome := by
          intro hs2
          rcases findActiveLoanBy_isSome hs2 with ⟨l, hl, hu, hb, hr⟩
          exact hnex ⟨l, hl, hu, by rw [hb, hbid], hr⟩
        refine ⟨⟨s.nextLoanId, userId, book.id, now, none⟩,
          { s with
            books := s.books.map (fun b => if b.id == book.id then
              { b with available_copies := b.available_copies - 1 } else b),
            loans := s.loans ++ [⟨s.nextLoanId, userId, book.id, now, none⟩],
            nextLoanId := s.nextLoanId + 1 },
          ?_, ?_, rfl, hbid, rfl, rfl, ?_⟩
        · simp [borrow, hfb, hpos, hdup]
        · simp [applyOp, borrow, hfb, hpos, hdup]
        · simp only [hbid]

theorem C2_witness :
    borrow sampleStore 1 5 20 = Except.error Err.notFound ∧
      applyOp (Op.opBorrow 1 5 20) sampleStore = sampleStore :=
  (C2_borrow_case_analysis sampleStore 1 5 20 (by decide)).1 (by decide)

/-- C3: returnLoan fails with NotFound when the loan id is unknown, with
Forbidden when the caller neither owns the loan nor is an admin, with
Conflict when the loan is already Returned — each failure leaving the
store unchanged; otherwise it sets `returned_at` and increments the
loan's book's `available_copies` by one, and an immediate second call on
the same loan id by the same caller yields Conflict with no further
change, so the count rises by exactly one in total. -/
theorem C3_return_case_analysis (s : Store) (loanId : Nat) (caller : User) (now now2 : Nat)
    (h : Wf s) :
    (findLoan s.loans loanId = none →
      return_book s loanId caller now = Except.error Err.notFound ∧
        applyOp (Op.opReturn loanId caller now) s = s) ∧
    (∀ loan, findLoan s.loans loanId = some loan →
      (¬ (loan.user_id = caller.id ∨ caller.is_admin = true) →
        return_book s loanId caller now = Except.error Err.forbidden ∧
          applyOp (Op.opReturn loanId caller now) s = s) ∧
      ((loan.user_id = caller.id ∨ caller.is_admin = true) →
        (loan.returned_at ≠ none →
          return_book s loanId caller now = Except.error Err.conflict ∧
            applyOp (Op.opReturn loanId caller now) s = s) ∧
        (loan.returned_at = none →
          return_book s loanId caller now =
              Except.ok ({ loan with returned_at := some now },
                applyOp (Op.opReturn loanId caller now) s) ∧
            (applyOp (Op.opReturn loanId caller now) s).loans =
              s.loans.map (fun l => if l.id == loanId then
                { l with returned_at := some now } else l) ∧
            bavail (applyOp (Op.opReturn loanId caller now) s) loan.book_id =
              bavail s loan.book_id + 1 ∧
            return_book (applyOp (Op.opReturn loanId caller now) s) loanId caller now2 =
              Except.error Err.conflict ∧
            applyOp (Op.opReturn loanId caller now2)
                (applyOp (Op.opReturn loanId caller now) s) =
              applyOp (Op.opReturn loanId caller now) s))) := by
  obtain ⟨hbn, hln, hbb, hlb, href, hcopy, honce⟩ := h
  refine ⟨?_, ?_⟩
  · intro hfl
    exact ⟨by simp [return_book, hfl], by simp [applyOp, return_book, hfl]⟩
  · intro loan hfl
    obtain ⟨hlmem, hlid⟩ := findLoan_eq_some hfl
    refine ⟨?_, ?_⟩
    · intro hno
      push_neg at hno
      obtain ⟨hno1, hno2⟩ := hno
      have hcond : (loan.user_id != caller.id && !caller.is_admin) = true := by
        simp [hno1, hno2]
      exact ⟨by simp [return_book, hfl, hcond],
        by simp [applyOp, return_book, hfl, hcond]⟩
    · intro hauth
      have hcond : (loan.user_id != caller.id && !caller.is_admin) = false := by
        rcases hauth with h1 | h1 <;> simp [h1]
      refine ⟨?_, ?_⟩
      · intro hsome
        have hs : loan.returned_at.isSome := Option.ne_none_iff_isSome.mp hsome
        exact ⟨by simp [return_book, hfl, hcond, hs],
          by simp [applyOp, return_book, hfl, hcond, hs]⟩
      · intro hnone
        have hbex := href loan hlmem hnone
        have hfbsome : (findBook s.books loan.book_id).isSome := by
          rw [findBook, List.find?_isSome]
          rcases hbex with ⟨b, hb, hid⟩
          exact ⟨b, hb, by simp [hid]⟩
        obtain ⟨bk, hfb⟩ := Option.isSome_iff_exists.mp hfbsome
        obtain ⟨hbkmem, hbkid⟩ := findBook_eq_some hfb
        have hfb2 : findBook (s.books.map (fun b => if b.id == loan.book_id then
            { b with available_copies := b.available_copies + 1 } else b)) loan.book_id
            = some (if bk.id == loan.book_id then
              { bk with available_copies := bk.available_copies + 1 } else bk) :=
          find?_map_keyed _ Book.id loan.book_id s.books bk hfb
            (fun b => by by_cases hh : b.id = loan.book_id <;> simp [hh])
        have hfl2 : findLoan (s.loans.map (fun l => if l.id == loanId then
            { l with returned_at := some now } else l)) loanId
            = some (if loan.id == loanId then
              { loan with returned_at := some now } else loan) :=
          find?_map_keyed _ Loan.id loanId s.loans loan hfl
            (fun l => by by_cases hh : l.id = loanId <;> simp [hh])
        rw [if_pos (by simp [hlid])] at hfl2
        rw [if_pos (by simp [hbkid])] at hfb2
        have happ : applyOp (Op.opReturn loanId caller now) s = { s with
            loans := s.loans.map (fun l => if l.id == loanId then
              { l with returned_at := some now } else l),
            books := s.books.map (fun b => if b.id == loan.book_id then
              { b with available_copies := b.available_copies + 1 } else b) } := by
          simp [applyOp, return_book, hfl, hcond, hnone, hfb]
        rw [happ]
        refine ⟨?_, rfl, ?_, ?_, ?_⟩
        · rw [← happ]
          simp [applyOp, return_book, hfl, hcond, hnone, hfb]
        · simp only [bavail]
          rw [hfb2, hfb]
        · unfold return_book
          dsimp only
          rw [hfl2]
          simp [hcond]
        · unfold applyOp return_book
          dsimp only
          rw [hfl2]
          simp [hcond]

theorem C3_witness :
    return_book sampleStore 1 sampleAlice 20 =
        Except.ok (⟨1, 2, 1, 10, some 20⟩,
          applyOp (Op.opReturn 1 sampleAlice 20) sampleStore) ∧
      (applyOp (Op.opReturn 1 sampleAlice 20) sampleStore).loans =
        sampleStore.loans.map (fun l => if l.id == 1 then
          { l with returned_at := some 20 } else l) ∧
      bavail (applyOp (Op.opReturn 1 sampleAlice 20) sampleStore) 1 =
        bavail sampleStore 1 + 1 ∧
      return_book (applyOp (Op.opReturn 1 sampleAlice 20) sampleStore) 1 sampleAlice 30 =
        Except.error Err.conflict ∧
      applyOp (Op.opReturn 1 sampleAlice 30)
          (applyOp (Op.opReturn 1 sampleAlice 20) sampleStore) =
        applyOp (Op.opReturn 1 sampleAlice 20) sampleStore :=
  (((C3_return_case_analysis sampleStore 1 sampleAlice 20 30 (by decide)).2
    ⟨1, 2, 1, 10, none⟩ (by decide)).2 (Or.inl rfl)).2 rfl

/-- C6: the claim's success leg fails on the code.  On `sampleStore`
book 2 exists and no Active loan references it, so by the claim
deleteTitle must remove it; but a Returned loan row still references it,
the flush's nullify-on-delete violates the NOT NULL constraint on
`loans.book_id`, the request errors (HTTP 500), the store is unchanged
and the Title still appears in the listing.  The NotFound and Conflict
legs do hold: an unknown id is 404 and a Title with an Active loan
(book 1) is 409. -/
theorem C6_delete_blocked_by_returned_loan :
    Wf sampleStore ∧
    findBook sampleStore.books 2 = some ⟨2, "Emma", "Austen", "222", none, 1, 1⟩ ∧
    activeCount sampleStore.loans 2 = 0 ∧
    (⟨2, 2, 2, 11, some 12⟩ : Loan) ∈ sampleStore.loans ∧
    delete_book sampleStore sampleAdmin 2 = Except.error Err.internal ∧
    applyOp (Op.opDeleteBook sampleAdmin 2) sampleStore = sampleStore ∧
    (⟨2, "Emma", "Austen", "222", none, 1, 1⟩ : Book) ∈ list_books sampleStore none none none ∧
    delete_book sampleStore sampleAdmin 5 = Except.error Err.notFound ∧
    delete_book sampleStore sampleAdmin 1 = Except.error Err.conflict :=
  ⟨by decide, by decide, by decide, by decide, rfl, rfl, by decide, rfl, rfl⟩

/-- C10: the claim's scenario cannot be reached on the code.  A Title
still referenced by a (Returned) loan row is never deleted successfully:
on `sampleStore` the delete of book 2 fails with the nullify-on-delete
IntegrityError and changes nothing, its Returned loan remaining in its
owner's listing only because the Title was kept; a delete succeeds only
for a Title no loan row references, as for book 3 of `sampleStore3`, and
then it removes exactly that book row and leaves the loans relation
untouched. -/
theorem C10_frame_scenario_unreachable :
    delete_book sampleStore sampleAdmin 2 = Except.error Err.internal ∧
    applyOp (Op.opDeleteBook sampleAdmin 2) sampleStore = sampleStore ∧
    (⟨2, 2, 2, 11, some 12⟩ : Loan) ∈ my_loans sampleStore 2 ∧
    Wf sampleStore3 ∧
    sampleStore3.loans.filter (fun l => l.book_id == 3) = [] ∧
    delete_book sampleStore3 sampleAdmin 3 =
      Except.ok { sampleStore3 with books := sampleStore3.books.filter (fun b => b.id != 3) } ∧
    ({ sampleStore3 with books := sampleStore3.books.filter (fun b => b.id != 3) } : Store).loans
      = sampleStore3.loans :=
  ⟨rfl, rfl, by decide, by decide, rfl, rfl, rfl⟩

/-- The phased decomposition is the sequential handler: when the read
phase's checks pass, `borrow` commits exactly the write phase computed
from the snapshot. -/
theorem borrow_eq_read_write (s : Store) (userId bookId now : Nat) (hwf : Wf s)
    (h : snapPasses (borrowRead s userId bookId) = true) :
    borrow s userId bookId now = Except.ok (⟨s.nextLoanId, userId, bookId, now, none⟩,
      borrowWrite s userId bookId (borrowRead s userId bookId).avail now) := by
  obtain ⟨hbn, _, _, _, _, _, _⟩ := hwf
  match hfb : findBook s.books bookId with
  | none => simp [borrowRead, hfb, snapPasses] at h
  | some book =>
    obtain ⟨hbmem, hbid⟩ := findBook_eq_some hfb
    simp only [borrowRead, hfb, snapPasses, Bool.and_eq_true, Bool.not_eq_true',
      decide_eq_false_iff_not] at h
    obtain ⟨⟨_, havail⟩, hdup⟩ := h
    have hdup2 : ¬ (findActiveLoanBy s.loans userId book.id).isSome := by
      rw [hbid]
      simp [hdup]
    have hmap : s.books.map (fun b => if b.id == book.id then
        { b with available_copies := b.available_copies - 1 } else b)
        = s.books.map (fun b => if b.id == bookId then
        { b with available_copies := book.available_copies - 1 } else b) := by
      apply List.map_congr_left
      intro b hb
      by_cases hcc : b.id = bookId
      · have hbeq : b = book := book_eq_of_id_eq hbn hb hbmem (by rw [hcc, hbid])
        rw [hbeq]
        simp [hbid]
      · have hcc2 : ¬ b.id = book.id := by rw [hbid]; exact hcc
        simp [hcc, hcc2]
    have hbr : borrowRead s userId bookId = ⟨true, book.available_copies,
        (findActiveLoanBy s.loans userId bookId).isSome⟩ := by
      simp [borrowRead, hfb]
    rw [hbr]
    dsimp only
    simp only [borrow, hfb, havail, hdup2, Bool.false_eq_true, if_false, if_neg, ite_false,
      borrowWrite]
    rw [hmap, hbid]

/-- C4: the check-then-decrement race.  The handlers serialize nothing,
so the schedule in which both `borrow` read phases run before either
commit is possible; on a book with one available copy both callers then
pass every check, both commit, both receive 201, two Active loans exist,
and the copy-accounting invariant I1 is broken — contradicting the claim
that one of the two must observe 409. -/
theorem C4_race_both_succeed :
    Wf sampleStore ∧
    bavail sampleStore 2 = 1 ∧
    (borrowInterleaved sampleStore 1 2 2 30).1 = true ∧
    (borrowInterleaved sampleStore 1 2 2 30).2.1 = true ∧
    activeCount (borrowInterleaved sampleStore 1 2 2 30).2.2.loans 2 = 2 ∧
    bavail (borrowInterleaved sampleStore 1 2 2 30).2.2 2 = 0 ∧
    ¬ CopyInv (borrowInterleaved sampleStore 1 2 2 30).2.2 := by
  decide

/-- C7 counterexample: a correctly-signed, unexpired token whose embedded
subject names no stored user is rejected with 401, so resolution does not
fail only on bad signature, malformation or expiry, and is not
independent of server-side state. -/
theorem C7_counterexample :
    jwt_decode (TokenV.signed (some "ghost") 100) 0 = some (some "ghost") ∧
    get_current_user sampleStore (TokenV.signed (some "ghost") 100) 0 =
      Except.error Err.unauthorized :=
  ⟨rfl, rfl⟩

/-- C7 amended: resolution fails with Unauthorized when the signature is
invalid, the token is malformed, the expiry has passed, or the embedded
subject names no stored user; it succeeds exactly on well-signed
unexpired tokens whose subject is a stored username, yielding that user. -/
theorem C7_resolve_characterization (s : Store) (t : TokenV) (now : Nat) :
    (∀ u, get_current_user s t now = Except.ok u ↔
      ∃ sub exp, t = TokenV.signed (some sub) exp ∧ now < exp ∧
        findUserByName s.users sub = some u) ∧
    (∀ e, get_current_user s t now = Except.error e → e = Err.unauthorized) := by
  cases t with
  | signed sub exp =>
    by_cases hexp : now < exp
    · cases sub with
      | none =>
        constructor
        · intro u
          simp [get_current_user, jwt_decode, hexp]
        · intro e he
          simp only [get_current_user, jwt_decode, hexp, if_pos, ite_true,
            Option.none_bind, Except.error.injEq] at he
          exact he.symm
      | some uname =>
        match hfu : findUserByName s.users uname with
        | none =>
          constructor
          · intro u
            simp only [get_current_user, jwt_decode, hexp, if_pos, ite_true,
              Option.some_bind, hfu]
            constructor
            · intro hcon
              exact absurd hcon (by simp)
            · rintro ⟨sub2, exp2, heq, _, hfind⟩
              obtain ⟨hs2, _⟩ := TokenV.signed.inj heq
              rw [(Option.some.inj hs2)] at hfu
              rw [hfu] at hfind
              exact absurd hfind (by simp)
          · intro e he
            simp only [get_current_user, jwt_decode, hexp, if_pos, ite_true,
              Option.some_bind, hfu, Except.error.injEq] at he
            exact he.symm
        | some u0 =>
          constructor
          · intro u
            simp only [get_current_user, jwt_decode, hexp, if_pos, ite_true,
              Option.some_bind, hfu, Except.ok.injEq]
            constructor
            · intro hu
              exact ⟨uname, exp, rfl, hexp, by rw [hfu, hu]⟩
            · rintro ⟨sub2, exp2, heq, _, hfind⟩
              obtain ⟨hs2, _⟩ := TokenV.signed.inj heq
              rw [(Option.some.inj hs2)] at hfu
              rw [hfu] at hfind
              exact Option.some.inj hfind
          · intro e he
            simp [get_current_user, jwt_decode, hexp, hfu] at he
    · constructor
      · intro u
        simp only [get_current_user, jwt_decode, hexp, if_neg, ite_false]
        constructor
        · intro hcon
          exact absurd hcon (by simp)
        · rintro ⟨sub2, exp2, heq, hlt, _⟩
          obtain ⟨_, he2⟩ := TokenV.signed.inj heq
          exact absurd (he2 ▸ hlt) hexp
      · intro e he
        simp only [get_current_user, jwt_decode, hexp, if_neg, ite_false,
          Except.error.injEq] at he
        exact he.symm
  | badSig =>
    constructor
    · intro u
      simp [get_current_user, jwt_decode]
    · intro e he
      simp only [get_current_user, jwt_decode, Except.error.injEq] at he
      exact he.symm
  | malformed =>
    constructor
    · intro u
      simp [get_current_user, jwt_decode]
    · intro e he
      simp only [get_current_user, jwt_decode, Except.error.injEq] at he
      exact he.symm

theorem C7_witness :
    get_current_user sampleStore (TokenV.signed (some "alice") 100) 0 =
      Except.ok sampleAlice :=
  ((C7_resolve_characterization sampleStore (TokenV.signed (some "alice") 100) 0).1
    sampleAlice).mpr ⟨"alice", 100, rfl, by omega, by decide⟩


theorem charToNatOfNat (n : Nat) (h : n.isValidChar) : (Char.ofNat n).toNat = n := by
  unfold Char.ofNat
  rw [dif_pos h]
  unfold Char.ofNatAux Char.toNat
  simp [UInt32.toNat, BitVec.toNat_ofNatLt]

theorem toLower_ne_wild {c d : Char} (hd : d.toNat < 97 ∨ 122 < d.toNat)
    (h : ¬ c = d) : ¬ Char.toLower c = d := by
  intro hl
  unfold Char.toLower at hl
  simp only [] at hl
  by_cases hcond : c.toNat ≥ 65 ∧ c.toNat ≤ 90
  · rw [if_pos hcond] at hl
    have hv : (c.toNat + 32).isValidChar := by
      unfold Nat.isValidChar
      left
      omega
    have h2 := congrArg Char.toNat hl
    rw [charToNatOfNat _ hv] at h2
    omega
  · rw [if_neg hcond] at hl
    exact h hl

theorem likeMatch_nil_eq (s : List Char) : likeMatch [] s = s.isEmpty := by
  simp [likeMatch]

theorem likeMatch_pct_nil (ps : List Char) : likeMatch ('%' :: ps) [] = likeMatch ps [] := by
  simp [likeMatch]

theorem likeMatch_pct_cons (ps : List Char) (c : Char) (s2 : List Char) :
    likeMatch ('%' :: ps) (c :: s2) =
      (likeMatch ps (c :: s2) || likeMatch ('%' :: ps) s2) := by
  simp [likeMatch]

theorem likeMatch_ne_nil {p : Char} (ps : List Char) (h1 : ¬ p = '%') :
    likeMatch (p :: ps) [] = false := by
  simp [likeMatch, h1]

theorem likeMatch_ne_cons {p : Char} (ps : List Char) (c : Char) (s2 : List Char)
    (h1 : ¬ p = '%') (h2 : ¬ p = '_') :
    likeMatch (p :: ps) (c :: s2) = (p == c && likeMatch ps s2) := by
  simp [likeMatch, h1, h2]

theorem likeMatch_all (s : List Char) : likeMatch ['%'] s = true := by
  induction s with
  | nil =>
    rw [likeMatch_pct_nil, likeMatch_nil_eq]
    rfl
  | cons c s2 ih =>
    rw [likeMatch_pct_cons, ih]
    simp

theorem likeMatch_pct_iff (ps : List Char) (s : List Char) :
    likeMatch ('%' :: ps) s = true ↔ ∃ t, t <:+ s ∧ likeMatch ps t = true := by
  induction s with
  | nil =>
    rw [likeMatch_pct_nil]
    constructor
    · intro h
      exact ⟨[], List.suffix_rfl, h⟩
    · rintro ⟨t, ht, hm⟩
      rw [List.suffix_nil] at ht
      subst ht
      exact hm
  | cons c s2 ih =>
    rw [likeMatch_pct_cons, Bool.or_eq_true, ih]
    constructor
    · rintro (h | ⟨t, ht, hm⟩)
      · exact ⟨c :: s2, List.suffix_rfl, h⟩
      · exact ⟨t, ht.trans (List.suffix_cons c s2), hm⟩
    · rintro ⟨t, ht, hm⟩
      rcases List.suffix_cons_iff.mp ht with rfl | ht2
      · exact Or.inl hm
      · exact Or.inr ⟨t, ht2, hm⟩

theorem likeMatch_plain_iff (L : List Char) (hL : ∀ c ∈ L, ¬ c = '%' ∧ ¬ c = '_') :
    ∀ s, likeMatch (L ++ ['%']) s = true ↔ L <+: s := by
  induction L with
  | nil =>
    intro s
    simp [likeMatch_all, List.nil_prefix]
  | cons c L2 ih =>
    intro s
    obtain ⟨hc1, hc2⟩ := hL c (List.mem_cons_self c L2)
    have ihL := ih (fun d hd => hL d (List.mem_cons_of_mem c hd))
    cases s with
    | nil =>
      rw [List.cons_append, likeMatch_ne_nil _ hc1]
      constructor
      · intro h
        exact absurd h (by simp)
      · intro h
        exact absurd (List.prefix_nil.mp h) (by simp)
    | cons d s2 =>
      rw [List.cons_append, likeMatch_ne_cons _ _ _ hc1 hc2, List.cons_prefix_cons,
        Bool.and_eq_true, beq_iff_eq, ihL s2]

theorem likeMatch_sub_iff (L : List Char) (hL : ∀ c ∈ L, ¬ c = '%' ∧ ¬ c = '_')
    (s : List Char) : likeMatch ('%' :: L ++ ['%']) s = true ↔ L <:+: s := by
  rw [List.cons_append, likeMatch_pct_iff (L ++ ['%']) s, List.infix_iff_prefix_suffix]
  constructor
  · rintro ⟨t, ht, hm⟩
    exact ⟨t, (likeMatch_plain_iff L hL t).mp hm, ht⟩
  · rintro ⟨t, hp, hsuf⟩
    exact ⟨t, hsuf, (likeMatch_plain_iff L hL t).mpr hp⟩


theorem ilike_eq_ciSubstr (t : String) (ht : noWildcard t = true) (col : String) :
    ilike ('%' :: t.data ++ ['%']) col = ciSubstr t col := by
  unfold ilike ciSubstr
  have hLw : ∀ c ∈ t.data.map Char.toLower, ¬ c = '%' ∧ ¬ c = '_' := by
    intro c hc
    rcases List.mem_map.mp hc with ⟨c0, hc0, rfl⟩
    unfold noWildcard at ht
    rw [List.all_eq_true] at ht
    have h0 := ht c0 hc0
    simp only [Bool.and_eq_true, Bool.not_eq_true', beq_eq_false_iff_ne, ne_eq] at h0
    exact ⟨toLower_ne_wild (by left; decide) h0.1, toLower_ne_wild (by left; decide) h0.2⟩
  have hmap : ('%' :: t.data ++ ['%']).map Char.toLower
      = ('%' :: (t.data.map Char.toLower)) ++ ['%'] := by
    simp only [List.cons_append, List.map_cons, List.map_append, List.map_nil]
    rfl
  rw [hmap]
  have hiff := likeMatch_sub_iff (t.data.map Char.toLower) hLw (col.data.map Char.toLower)
  cases hcase : likeMatch (('%' :: (t.data.map Char.toLower)) ++ ['%'])
      (col.data.map Char.toLower) with
  | true =>
    symm
    rw [decide_eq_true_eq]
    exact hiff.mp hcase
  | false =>
    symm
    rw [decide_eq_false_iff_not]
    intro hinf
    have h2 := hiff.mpr hinf
    rw [hcase] at h2
    exact Bool.false_ne_true h2

/-- C8 amended: the listing returns exactly the titles passing every
supplied filter under the handler's truthiness reading — an empty
category or text parameter (and a false or absent `available`) is
treated as no filter; category matches by exact equality, availability
by `available_copies > 0`, and, provided the text contains no SQL LIKE
wildcard, text by case-insensitive substring match against title or
author — and the result is ordered by ascending id, the creation order. -/
theorem C8_listing_characterization (s : Store) (category : Option String)
    (available : Option Bool) (q : Option String)
    (hq : ∀ t, q = some t → noWildcard t = true) :
    list_books s category available q =
      sortBooksByIdAsc (s.books.filter (listBooksSpecPred category available q)) := by
  show list_books s category available q =
    sortBooksByIdAsc (s.books.filter (fun b => listBooksSpecPred category available q b))
  rcases category with _ | c <;> rcases q with _ | t
  · rcases available with _ | b
    · simp [list_books, listBooksSpecPred]
    · cases b <;> simp [list_books, listBooksSpecPred]
  · have hqt := hq t rfl
    have hsub : ∀ col, ilike ('%' :: (t.data ++ ['%'])) col = ciSubstr t col := by
      intro col
      rw [← List.cons_append]
      exact ilike_eq_ciSubstr t hqt col
    rcases available with _ | b
    · by_cases hte : t.isEmpty <;>
        simp [list_books, listBooksSpecPred, hte, hsub, List.filter_filter,
          Bool.and_assoc, Bool.and_comm, Bool.and_left_comm]
    · cases b <;> by_cases hte : t.isEmpty <;>
        simp [list_books, listBooksSpecPred, hte, hsub, List.filter_filter,
          Bool.and_assoc, Bool.and_comm, Bool.and_left_comm]
  · rcases available with _ | b
    · by_cases hce : c.isEmpty <;>
        simp [list_books, listBooksSpecPred, hce, List.filter_filter,
          Bool.and_assoc, Bool.and_comm, Bool.and_left_comm]
    · cases b <;> by_cases hce : c.isEmpty <;>
        simp [list_books, listBooksSpecPred, hce, List.filter_filter,
          Bool.and_assoc, Bool.and_comm, Bool.and_left_comm]
  · have hqt := hq t rfl
    have hsub : ∀ col, ilike ('%' :: (t.data ++ ['%'])) col = ciSubstr t col := by
      intro col
      rw [← List.cons_append]
      exact ilike_eq_ciSubstr t hqt col
    rcases available with _ | b
    · by_cases hce : c.isEmpty <;> by_cases hte : t.isEmpty <;>
        simp [list_books, listBooksSpecPred, hce, hte, hsub, List.filter_filter,
          Bool.and_assoc, Bool.and_comm, Bool.and_left_comm]
    · cases b <;> by_cases hce : c.isEmpty <;> by_cases hte : t.isEmpty <;>
        simp [list_books, listBooksSpecPred, hce, hte, hsub, List.filter_filter,
          Bool.and_assoc, Bool.and_comm, Bool.and_left_comm]


theorem C8_witness :
    list_books sampleStore (some "scifi") (some true) (some "dUn") =
      sortBooksByIdAsc (sampleStore.books.filter
        (listBooksSpecPred (some "scifi") (some true) (some "dUn"))) :=
  C8_listing_characterization sampleStore (some "scifi") (some true) (some "dUn")
    (fun t ht => by rw [← Option.some.inj ht]; decide)

/-- C8 counterexample: with a supplied empty-string category filter the
listing still returns a book whose category is not the empty string, so
"returns exactly the Titles matching all supplied filters — category by
exact equality" fails as stated (the handler treats a falsy parameter as
absent). -/
theorem C8_counterexample :
    (⟨1, "Dune", "Herbert", "111", some "scifi", 2, 1⟩ : Book) ∈
        list_books sampleStore (some "") none none ∧
      (⟨1, "Dune", "Herbert", "111", some "scifi", 2, 1⟩ : Book).category ≠ some "" := by
  decide

end LibraryApi
